import Mathlib

/-!
Verification development for the utility module
`rastervision_pytorch_learner/rastervision/pytorch_learner/utils/utils.py`.

Modelling conventions:
* tensor element values are rationals (exact arithmetic in place of float32);
* a Python `dict` is an insertion-ordered association list: updating an
  existing key overwrites its value in place, a new key is appended;
* `torch` broadcasting is modelled explicitly by a `Tensor` structure carrying
  a shape and a getter from multi-indices to values;
* fallible behaviour (failed broadcast, failed `assert`, raised exception)
  is modelled with `Option` / `Except`.
-/

/-! ## Python dict model (insertion-ordered association list) -/

def dictInsert (d : List (String × ℚ)) (k : String) (v : ℚ) : List (String × ℚ) :=
  match d with
  | [] => [(k, v)]
  | (k', v') :: rest => if k' = k then (k', v) :: rest else (k', v') :: dictInsert rest k v

def dictLookup (d : List (String × ℚ)) (k : String) : Option ℚ :=
  match d with
  | [] => none
  | (k', v') :: rest => if k' = k then some v' else dictLookup rest k

def hasKey (d : List (String × ℚ)) (k : String) : Bool :=
  d.any (fun p => p.1 == k)

def dictKeys (d : List (String × ℚ)) : List String :=
  d.map Prod.fst

/-! ## compute_conf_mat_metrics (utils.py lines 42-71)

The torch tensors `gt_count`, `pred_count`, `true_pos`, `precision`, `recall'`,
`f1`, `weights` are modelled as lists of rationals; the returned Python dict as
an association list built exactly like the source: a three-entry literal for
the averaged metrics followed by one `update` of three keys per label name. -/

namespace Metrics

def gt_count (m : List (List ℚ)) : List ℚ :=
  m.map List.sum

def pred_count (m : List (List ℚ)) : List ℚ :=
  (List.range m.length).map (fun j => (m.map (fun row => row.getD j 0)).sum)

def total (m : List (List ℚ)) : ℚ :=
  (m.map List.sum).sum

def true_pos (m : List (List ℚ)) : List ℚ :=
  (List.range m.length).map (fun i => (m.getD i []).getD i 0)

def precision (m : List (List ℚ)) (eps : ℚ) : List ℚ :=
  List.zipWith (fun tp pc => tp / max pc eps) (true_pos m) (pred_count m)

def recall' (m : List (List ℚ)) (eps : ℚ) : List ℚ :=
  List.zipWith (fun tp gc => tp / max gc eps) (true_pos m) (gt_count m)

def f1 (m : List (List ℚ)) (eps : ℚ) : List ℚ :=
  List.zipWith (fun p r => 2 * p * r / max (p + r) eps) (precision m eps) (recall' m eps)

def weights (m : List (List ℚ)) : List ℚ :=
  (gt_count m).map (fun g => g / total m)

def weighted_precision (m : List (List ℚ)) (eps : ℚ) : ℚ :=
  (List.zipWith (fun w p => w * p) (weights m) (precision m eps)).sum

def weighted_recall (m : List (List ℚ)) (eps : ℚ) : ℚ :=
  (List.zipWith (fun w r => w * r) (weights m) (recall' m eps)).sum

def weighted_f1 (m : List (List ℚ)) (eps : ℚ) : ℚ :=
  2 * weighted_precision m eps * weighted_recall m eps /
    max (weighted_precision m eps + weighted_recall m eps) eps

def baseMetrics (m : List (List ℚ)) (eps : ℚ) : List (String × ℚ) :=
  [("avg_precision", weighted_precision m eps),
   ("avg_recall", weighted_recall m eps),
   ("avg_f1", weighted_f1 m eps)]

def addLabel (pr rc fv : List ℚ) (d : List (String × ℚ)) (i : Nat) (n : String) :
    List (String × ℚ) :=
  dictInsert (dictInsert (dictInsert d (n ++ "_precision") (pr.getD i 0))
    (n ++ "_recall") (rc.getD i 0)) (n ++ "_f1") (fv.getD i 0)

def insertLabels (pr rc fv : List ℚ) : Nat → List String → List (String × ℚ) → List (String × ℚ)
  | _, [], d => d
  | i, n :: ns, d => insertLabels pr rc fv (i + 1) ns (addLabel pr rc fv d i n)

end Metrics

def compute_conf_mat_metrics (conf_mat : List (List ℚ)) (label_names : List String)
    (eps : ℚ := 1 / 1000000) : List (String × ℚ) :=
  Metrics.insertLabels (Metrics.precision conf_mat eps) (Metrics.recall' conf_mat eps)
    (Metrics.f1 conf_mat eps) 0 label_names (Metrics.baseMetrics conf_mat eps)

def zeroMat (n : Nat) : List (List ℚ) :=
  List.replicate n (List.replicate n 0)

/-- Index (counting from 0) of the last occurrence of `n` in a list of names;
meaningful only when `n` is a member. -/
def lastOcc (n : String) : List String → Nat
  | [] => 0
  | _ :: ms => if n ∈ ms then lastOcc n ms + 1 else 0

/-- Number of distinct names in the second list that do not already occur in
the first list (the names processed so far). -/
def distinctNew (ps : List String) : List String → Nat
  | [] => 0
  | n :: ns => (if n ∈ ps then 0 else 1) + distinctNew (n :: ps) ns

/-! ## compute_conf_mat (utils.py lines 36-39) and the torch broadcasting model -/

structure Tensor where
  shape : List Nat
  get : List Nat → Int

def broadcastDim (a b : Nat) : Option Nat :=
  if a = b then some a else if a = 1 then some b else if b = 1 then some a else none

def broadcastShapeRev : List Nat → List Nat → Option (List Nat)
  | [], t => some t
  | s, [] => some s
  | a :: s, b :: t =>
    match broadcastDim a b, broadcastShapeRev s t with
    | some d, some r => some (d :: r)
    | _, _ => none

/-- Broadcast two shapes, right-aligned, as `numpy`/`torch` do. -/
def broadcastShape (s t : List Nat) : Option (List Nat) :=
  (broadcastShapeRev s.reverse t.reverse).map List.reverse

/-- Map a multi-index of the broadcast shape back to a multi-index of an
operand of shape `shape`: keep the trailing coordinates, and send the
coordinate of any dimension of size 1 to 0. -/
def alignIdx (shape idx : List Nat) : List Nat :=
  (List.zip shape (idx.drop (idx.length - shape.length))).map
    (fun p => if p.1 = 1 then 0 else p.2)

/-- The value of an elementwise operation at a multi-index of the broadcast
shape: each operand is read at its aligned index. -/
def ewiseGet (f : Int → Int → Int) (t u : Tensor) : List Nat → Int :=
  fun idx => f (t.get (alignIdx t.shape idx)) (u.get (alignIdx u.shape idx))

def ewise (f : Int → Int → Int) (t u : Tensor) : Option Tensor :=
  (broadcastShape t.shape u.shape).map (fun sh => Tensor.mk sh (ewiseGet f t u))

/-- `==` on tensors; boolean results are represented as 0/1 values. -/
def eqT : Tensor → Tensor → Option Tensor :=
  ewise (fun a b => if a = b then 1 else 0)

/-- `&` on boolean (0/1) tensors. -/
def andT : Tensor → Tensor → Option Tensor :=
  ewise (fun a b => if a ≠ 0 ∧ b ≠ 0 then 1 else 0)

/-- `t.sum(dim = d)`. -/
def sumDim (t : Tensor) (d : Nat) : Tensor :=
  Tensor.mk (t.shape.take d ++ t.shape.drop (d + 1))
    (fun idx => ((List.range (t.shape.getD d 0)).map
      (fun j => t.get (idx.take d ++ j :: idx.drop d))).sum)

/-- `torch.arange(0, n)`. -/
def arange (n : Nat) : Tensor :=
  Tensor.mk [n] (fun idx => Int.ofNat (idx.getD 0 0))

/-- `t[..., None]`: append a dimension of size 1. -/
def unsqueezeLast (t : Tensor) : Tensor :=
  Tensor.mk (t.shape ++ [1]) (fun idx => t.get idx.dropLast)

/-- `compute_conf_mat(out, y, num_labels)`:
`((out == labels[:, None]) & (y == labels[:, None, None])).sum(dim=2)`. -/
def compute_conf_mat (out y : Tensor) (num_labels : Nat) : Option Tensor :=
  match eqT out (unsqueezeLast (arange num_labels)),
        eqT y (unsqueezeLast (unsqueezeLast (arange num_labels))) with
  | some a, some b =>
    match andT a b with
    | some c => some (sumDim c 2)
    | _ => none
  | _, _ => none

def tensor1d (xs : List Int) : Tensor :=
  Tensor.mk [xs.length] (fun idx => xs.getD (idx.getD 0 0) 0)

def tensor2d (rows : List (List Int)) : Tensor :=
  Tensor.mk [rows.length, (rows.getD 0 []).length]
    (fun idx => (rows.getD (idx.getD 0 0) []).getD (idx.getD 1 0) 0)

def matEntry (t : Option Tensor) (g p : Nat) : Option Int :=
  t.map (fun T => T.get [g, p])

/-- Number of positions at which the predicted label is `p` and the
ground-truth label is `g`. -/
def countPairs (out y : List Int) (g p : Int) : Int :=
  (((out.zip y).filter (fun q => q.1 == p && q.2 == g)).length : Int)

/-! ## validate_albumentation_transform (utils.py lines 74-82) -/

def configErrorMsg : String :=
  "The given serialization is invalid. Use A.to_dict(transform) to serialize."

/-- `A.from_dict` is an external library call; it is abstracted as a fallible
function supplied as an argument. -/
def validate_albumentation_transform {α : Type} (from_dict : α → Except String Unit)
    (tf : Option α) : Except String (Option α) :=
  match tf with
  | none => Except.ok none
  | some d =>
    match from_dict d with
    | Except.ok _ => Except.ok (some d)
    | Except.error _ => Except.error configErrorMsg

/-! ## Parallel (utils.py lines 97-109) -/

inductive ParallelInput (α : Type) where
  | tensor : α → ParallelInput α
  | seq : List α → ParallelInput α

/-- `Parallel.forward`: a single tensor is broadcast to every branch; a
sequence input must have exactly one element per branch (`assert`, modelled
as `none`). -/
def Parallel.forward {α β : Type} (modules : List (α → β)) :
    ParallelInput α → Option (List β)
  | ParallelInput.tensor x => some (modules.map (fun m => m x))
  | ParallelInput.seq xs =>
    if xs.length = modules.length then
      some (List.zipWith (fun m x => m x) modules xs)
    else none

/-! ## AddTensors (utils.py lines 112-116) -/

/-- A Python value that is either an `int` or a tensor (a 1-d list of
rationals); `sum(xs)` starts from the int `0`. -/
inductive TVal where
  | int : Int → TVal
  | tensor : List ℚ → TVal
deriving DecidableEq

/-- Python `+` on such values; `int + tensor` broadcasts the scalar. -/
def tvAdd : TVal → TVal → TVal
  | TVal.int a, TVal.int b => TVal.int (a + b)
  | TVal.int a, TVal.tensor t => TVal.tensor (t.map (fun x => (a : ℚ) + x))
  | TVal.tensor t, TVal.int b => TVal.tensor (t.map (fun x => x + (b : ℚ)))
  | TVal.tensor t, TVal.tensor u => TVal.tensor (List.zipWith (fun a b => a + b) t u)

/-- `AddTensors.forward(xs) = sum(xs)`: a left fold of `+` starting from the
built-in `sum`'s default start value, the int `0`. -/
def AddTensors.forward (xs : List TVal) : TVal :=
  xs.foldl tvAdd (TVal.int 0)

/-- Elementwise sum of a family of equal-length lists, written positionally. -/
def elemwiseSum (ts : List (List ℚ)) (len : Nat) : List ℚ :=
  (List.range len).map (fun i => (ts.map (fun u => u.getD i 0)).sum)

/-! ## Association-list (dict) lemmas -/

theorem hasKey_nil (k : String) : hasKey [] k = false := rfl

theorem hasKey_cons (k' : String) (v' : ℚ) (rest : List (String × ℚ)) (k : String) :
    hasKey ((k', v') :: rest) k = ((k' == k) || hasKey rest k) := rfl

theorem hasKey_iff_mem (d : List (String × ℚ)) (k : String) :
    hasKey d k = true ↔ k ∈ dictKeys d := by
  simp [hasKey, dictKeys, List.any_eq_true]

theorem dictLookup_dictInsert_self (d : List (String × ℚ)) (k : String) (v : ℚ) :
    dictLookup (dictInsert d k v) k = some v := by
  induction d with
  | nil => simp [dictInsert, dictLookup]
  | cons p rest ih =>
    obtain ⟨k', v'⟩ := p
    by_cases h : k' = k
    · simp [dictInsert, dictLookup, h]
    · simp [dictInsert, dictLookup, h, ih]

theorem dictKeys_nil : dictKeys [] = [] := rfl

theorem dictKeys_cons (p : String × ℚ) (d : List (String × ℚ)) :
    dictKeys (p :: d) = p.1 :: dictKeys d := rfl

theorem dictLookup_dictInsert_ne (d : List (String × ℚ)) {k k' : String} (v : ℚ)
    (h : k' ≠ k) : dictLookup (dictInsert d k v) k' = dictLookup d k' := by
  induction d with
  | nil =>
    simp only [dictInsert, dictLookup]
    rw [if_neg (fun e : k = k' => h e.symm)]
  | cons p rest ih =>
    obtain ⟨k'', v''⟩ := p
    by_cases h2 : k'' = k
    · subst h2
      simp only [dictInsert, if_pos rfl, dictLookup]
      rw [if_neg (fun e : k'' = k' => h e.symm), if_neg (fun e : k'' = k' => h e.symm)]
    · simp only [dictInsert, if_neg h2, dictLookup]
      by_cases h3 : k'' = k'
      · simp [h3]
      · simp [h3, ih]

theorem length_dictInsert (d : List (String × ℚ)) (k : String) (v : ℚ) :
    (dictInsert d k v).length = if hasKey d k then d.length else d.length + 1 := by
  induction d with
  | nil => simp [dictInsert, hasKey]
  | cons p rest ih =>
    obtain ⟨k', v'⟩ := p
    by_cases h : k' = k
    · simp [dictInsert, hasKey_cons, h]
    · have hb : (k' == k) = false := beq_eq_false_iff_ne.mpr h
      simp only [dictInsert, if_neg h, List.length_cons, ih, hasKey_cons, hb,
        Bool.false_or]
      by_cases h2 : hasKey rest k = true <;> simp [h2]

theorem dictKeys_dictInsert_mem (d : List (String × ℚ)) (k : String) (v : ℚ)
    (h : hasKey d k = true) : dictKeys (dictInsert d k v) = dictKeys d := by
  induction d with
  | nil => simp [hasKey] at h
  | cons p rest ih =>
    obtain ⟨k', v'⟩ := p
    by_cases h2 : k' = k
    · simp [dictInsert, dictKeys, h2]
    · have hb : (k' == k) = false := beq_eq_false_iff_ne.mpr h2
      rw [hasKey_cons, hb, Bool.false_or] at h
      simp [dictInsert, h2, dictKeys_cons, ih h]

theorem dictKeys_dictInsert_not_mem (d : List (String × ℚ)) (k : String) (v : ℚ)
    (h : hasKey d k = false) : dictKeys (dictInsert d k v) = dictKeys d ++ [k] := by
  induction d with
  | nil => simp [dictInsert, dictKeys]
  | cons p rest ih =>
    obtain ⟨k', v'⟩ := p
    rw [hasKey_cons, Bool.or_eq_false_iff] at h
    have h1 : k' ≠ k := by
      intro e
      rw [e] at h
      simp at h
    simp [dictInsert, h1, dictKeys_cons, ih h.2]

theorem nodup_dictKeys_dictInsert (d : List (String × ℚ)) (k : String) (v : ℚ)
    (h : (dictKeys d).Nodup) : (dictKeys (dictInsert d k v)).Nodup := by
  by_cases hk : hasKey d k = true
  · rw [dictKeys_dictInsert_mem d k v hk]
    exact h
  · rw [dictKeys_dictInsert_not_mem d k v (by simpa using hk)]
    have hnm : k ∉ dictKeys d := fun hm => hk ((hasKey_iff_mem d k).mpr hm)
    simp [List.nodup_append, h, hnm]

theorem hasKey_dictInsert (d : List (String × ℚ)) (k k' : String) (v : ℚ) :
    hasKey (dictInsert d k v) k' = (hasKey d k' || (k == k')) := by
  by_cases hk : hasKey d k = true
  · have h1 : hasKey (dictInsert d k v) k' = hasKey d k' := by
      have e1 := hasKey_iff_mem (dictInsert d k v) k'
      have e2 := hasKey_iff_mem d k'
      rw [dictKeys_dictInsert_mem d k v hk] at e1
      by_cases h2 : hasKey d k' = true
      · rw [h2, e1.mpr (e2.mp h2)]
      · have h3 := (Bool.not_eq_true _).mp h2
        rw [h3]
        by_contra hcon
        have h4 := (Bool.not_eq_false _).mp hcon
        exact h2 (e2.mpr (e1.mp h4))
    rw [h1]
    by_cases he : k = k'
    · subst he
      rw [hk]
      simp [hk]
    · simp [beq_eq_false_iff_ne.mpr he]
  · have hkf := (Bool.not_eq_true _).mp hk
    have h1 := hasKey_iff_mem (dictInsert d k v) k'
    rw [dictKeys_dictInsert_not_mem d k v hkf] at h1
    by_cases he : k = k'
    · subst he
      simp only [beq_self_eq_true, Bool.or_true]
      exact h1.mpr (by simp)
    · have e2 := hasKey_iff_mem d k'
      simp only [beq_eq_false_iff_ne.mpr he, Bool.or_false]
      by_cases h2 : hasKey d k' = true
      · rw [h2, h1.mpr (by simp [e2.mp h2])]
      · have h3 := (Bool.not_eq_true _).mp h2
        rw [h3]
        by_contra hcon
        have h4 := (Bool.not_eq_false _).mp hcon
        have h5 := h1.mp h4
        simp only [List.mem_append, List.mem_singleton] at h5
        rcases h5 with h5 | h5
        · exact h2 (e2.mpr h5)
        · exact he h5.symm

/-! ## String key lemmas: the generated dict keys are pairwise distinct -/

theorem string_append_cancel_right {a b s : String} (h : a ++ s = b ++ s) : a = b := by
  apply String.ext
  have h2 := congrArg String.data h
  rw [String.data_append, String.data_append] at h2
  exact List.append_cancel_right h2

theorem string_lastChar_append (a s : String) (h : s.data ≠ []) :
    (a ++ s).data.getLast? = s.data.getLast? := by
  rw [String.data_append]
  exact List.getLast?_append_of_ne_nil _ h

theorem string_append_ne_of_lastChar {a b s t : String} (hs : s.data ≠ [])
    (ht : t.data ≠ []) (hne : s.data.getLast? ≠ t.data.getLast?) : a ++ s ≠ b ++ t := by
  intro h
  apply hne
  rw [← string_lastChar_append a s hs, ← string_lastChar_append b t ht, h]

theorem key_precision_ne_recall (a b : String) : a ++ "_precision" ≠ b ++ "_recall" :=
  string_append_ne_of_lastChar (by decide) (by decide) (by decide)

theorem key_precision_ne_f1 (a b : String) : a ++ "_precision" ≠ b ++ "_f1" :=
  string_append_ne_of_lastChar (by decide) (by decide) (by decide)

theorem key_recall_ne_f1 (a b : String) : a ++ "_recall" ≠ b ++ "_f1" :=
  string_append_ne_of_lastChar (by decide) (by decide) (by decide)

theorem avg_precision_eq : "avg_precision" = "avg" ++ "_precision" := by decide

theorem avg_recall_eq : "avg_recall" = "avg" ++ "_recall" := by decide

theorem avg_f1_eq : "avg_f1" = "avg" ++ "_f1" := by decide

/-! ## Lemmas about the label-metrics insertion loop -/

theorem insertLabels_step (pr rc fv : List ℚ) (i : Nat) (n : String) (ns : List String)
    (d : List (String × ℚ)) :
    Metrics.insertLabels pr rc fv i (n :: ns) d =
      Metrics.insertLabels pr rc fv (i + 1) ns (Metrics.addLabel pr rc fv d i n) := rfl

theorem insertLabels_lookup_frozen (pr rc fv : List ℚ) (k : String) :
    ∀ (ns : List String) (i : Nat) (d : List (String × ℚ)),
      (∀ n ∈ ns, k ≠ n ++ "_precision" ∧ k ≠ n ++ "_recall" ∧ k ≠ n ++ "_f1") →
      dictLookup (Metrics.insertLabels pr rc fv i ns d) k = dictLookup d k := by
  intro ns
  induction ns with
  | nil => intro i d _; rfl
  | cons n rest ih =>
    intro i d hk
    have hn := hk n (List.mem_cons_self n rest)
    rw [insertLabels_step, ih (i + 1) _ (fun m hm => hk m (List.mem_cons_of_mem n hm))]
    unfold Metrics.addLabel
    rw [dictLookup_dictInsert_ne _ _ hn.2.2, dictLookup_dictInsert_ne _ _ hn.2.1,
      dictLookup_dictInsert_ne _ _ hn.1]

theorem insertLabels_lookup_mem (pr rc fv : List ℚ) :
    ∀ (ns : List String) (i : Nat) (d : List (String × ℚ)) (n : String), n ∈ ns →
      dictLookup (Metrics.insertLabels pr rc fv i ns d) (n ++ "_precision") =
          some (pr.getD (i + lastOcc n ns) 0)
      ∧ dictLookup (Metrics.insertLabels pr rc fv i ns d) (n ++ "_recall") =
          some (rc.getD (i + lastOcc n ns) 0)
      ∧ dictLookup (Metrics.insertLabels pr rc fv i ns d) (n ++ "_f1") =
          some (fv.getD (i + lastOcc n ns) 0) := by
  intro ns
  induction ns with
  | nil => intro i d n hn; cases hn
  | cons m rest ih =>
    intro i d n hn
    by_cases hr : n ∈ rest
    · have e1 : lastOcc n (m :: rest) = lastOcc n rest + 1 := by
        simp [lastOcc, hr]
      have harith : i + (lastOcc n rest + 1) = (i + 1) + lastOcc n rest := by omega
      rw [insertLabels_step, e1, harith]
      exact ih (i + 1) (Metrics.addLabel pr rc fv d i m) n hr
    · have hm : n = m := by
        rcases List.mem_cons.mp hn with h | h
        · exact h
        · exact absurd h hr
      subst hm
      have e1 : lastOcc n (n :: rest) = 0 := by
        simp [lastOcc, hr]
      rw [insertLabels_step, e1, Nat.add_zero]
      have hfr : ∀ k : String,
          (∀ m' ∈ rest, k ≠ m' ++ "_precision" ∧ k ≠ m' ++ "_recall" ∧ k ≠ m' ++ "_f1") →
          dictLookup (Metrics.insertLabels pr rc fv (i + 1) rest
              (Metrics.addLabel pr rc fv d i n)) k =
            dictLookup (Metrics.addLabel pr rc fv d i n) k :=
        fun k hk => insertLabels_lookup_frozen pr rc fv k rest (i + 1) _ hk
      refine ⟨?_, ?_, ?_⟩
      · rw [hfr _ ?hp]
        case hp =>
          intro m' hm'
          refine ⟨?_, key_precision_ne_recall n m', key_precision_ne_f1 n m'⟩
          intro e
          apply hr
          rw [string_append_cancel_right e]
          exact hm'
        unfold Metrics.addLabel
        rw [dictLookup_dictInsert_ne _ _ (key_precision_ne_f1 n n),
          dictLookup_dictInsert_ne _ _ (key_precision_ne_recall n n),
          dictLookup_dictInsert_self]
        rfl
      · rw [hfr _ ?hq]
        case hq =>
          intro m' hm'
          refine ⟨(key_precision_ne_recall m' n).symm, ?_, key_recall_ne_f1 n m'⟩
          intro e
          apply hr
          rw [string_append_cancel_right e]
          exact hm'
        unfold Metrics.addLabel
        rw [dictLookup_dictInsert_ne _ _ (key_recall_ne_f1 n n),
          dictLookup_dictInsert_self]
        rfl
      · rw [hfr _ ?hs]
        case hs =>
          intro m' hm'
          refine ⟨(key_precision_ne_f1 m' n).symm, (key_recall_ne_f1 m' n).symm, ?_⟩
          intro e
          apply hr
          rw [string_append_cancel_right e]
          exact hm'
        unfold Metrics.addLabel
        rw [dictLookup_dictInsert_self]
        rfl

theorem hasKey_addLabel (pr rc fv : List ℚ) (d : List (String × ℚ)) (i : Nat)
    (n k : String) :
    hasKey (Metrics.addLabel pr rc fv d i n) k =
      (((hasKey d k || (n ++ "_precision" == k)) || (n ++ "_recall" == k)) ||
        (n ++ "_f1" == k)) := by
  unfold Metrics.addLabel
  rw [hasKey_dictInsert, hasKey_dictInsert, hasKey_dictInsert]

theorem hasKey_addLabel_true_iff (pr rc fv : List ℚ) (d : List (String × ℚ)) (i : Nat)
    (n k : String) :
    hasKey (Metrics.addLabel pr rc fv d i n) k = true ↔
      (hasKey d k = true ∨ n ++ "_precision" = k ∨ n ++ "_recall" = k ∨ n ++ "_f1" = k) := by
  rw [hasKey_addLabel]
  simp [Bool.or_eq_true, beq_iff_eq, or_assoc]

theorem bool_eq_false {b : Bool} (h : ¬b = true) : b = false := by
  cases b
  · rfl
  · exact absurd rfl h

theorem insertLabels_length (pr rc fv : List ℚ) :
    ∀ (ns : List String) (i : Nat) (d : List (String × ℚ)) (ps : List String),
      (∀ n ∈ ns, ((hasKey d (n ++ "_precision") = true) ↔ n ∈ ps)
        ∧ ((hasKey d (n ++ "_recall") = true) ↔ n ∈ ps)
        ∧ ((hasKey d (n ++ "_f1") = true) ↔ n ∈ ps)) →
      (Metrics.insertLabels pr rc fv i ns d).length = d.length + 3 * distinctNew ps ns := by
  intro ns
  induction ns with
  | nil => intro i d ps _; simp [Metrics.insertLabels, distinctNew]
  | cons n rest ih =>
    intro i d ps hinv
    obtain ⟨h1, h2, h3⟩ := hinv n (List.mem_cons_self n rest)
    have hinv' : ∀ m ∈ rest,
        ((hasKey (Metrics.addLabel pr rc fv d i n) (m ++ "_precision") = true) ↔ m ∈ n :: ps)
        ∧ ((hasKey (Metrics.addLabel pr rc fv d i n) (m ++ "_recall") = true) ↔ m ∈ n :: ps)
        ∧ ((hasKey (Metrics.addLabel pr rc fv d i n) (m ++ "_f1") = true) ↔ m ∈ n :: ps) := by
      intro m hm
      obtain ⟨g1, g2, g3⟩ := hinv m (List.mem_cons_of_mem n hm)
      refine ⟨?_, ?_, ?_⟩
      · rw [hasKey_addLabel_true_iff]
        constructor
        · rintro (h | h | h | h)
          · exact List.mem_cons_of_mem n (g1.mp h)
          · rw [← string_append_cancel_right h]
            exact List.mem_cons_self n ps
          · exact absurd h (key_precision_ne_recall m n).symm
          · exact absurd h (key_precision_ne_f1 m n).symm
        · intro hmem
          rcases List.mem_cons.mp hmem with he | hp
          · subst he
            exact Or.inr (Or.inl rfl)
          · exact Or.inl (g1.mpr hp)
      · rw [hasKey_addLabel_true_iff]
        constructor
        · rintro (h | h | h | h)
          · exact List.mem_cons_of_mem n (g2.mp h)
          · exact absurd h (key_precision_ne_recall n m)
          · rw [← string_append_cancel_right h]
            exact List.mem_cons_self n ps
          · exact absurd h (key_recall_ne_f1 m n).symm
        · intro hmem
          rcases List.mem_cons.mp hmem with he | hp
          · subst he
            exact Or.inr (Or.inr (Or.inl rfl))
          · exact Or.inl (g2.mpr hp)
      · rw [hasKey_addLabel_true_iff]
        constructor
        · rintro (h | h | h | h)
          · exact List.mem_cons_of_mem n (g3.mp h)
          · exact absurd h (key_precision_ne_f1 n m)
          · exact absurd h (key_recall_ne_f1 n m)
          · rw [← string_append_cancel_right h]
            exact List.mem_cons_self n ps
        · intro hmem
          rcases List.mem_cons.mp hmem with he | hp
          · subst he
            exact Or.inr (Or.inr (Or.inr rfl))
          · exact Or.inl (g3.mpr hp)
    by_cases hmem : n ∈ ps
    · have b1 : hasKey d (n ++ "_precision") = true := h1.mpr hmem
      have b2 : hasKey d (n ++ "_recall") = true := h2.mpr hmem
      have b3 : hasKey d (n ++ "_f1") = true := h3.mpr hmem
      have hb2 : hasKey (dictInsert d (n ++ "_precision") (pr.getD i 0))
          (n ++ "_recall") = true := by
        rw [hasKey_dictInsert, b2, Bool.true_or]
      have hb3 : hasKey (dictInsert (dictInsert d (n ++ "_precision") (pr.getD i 0))
          (n ++ "_recall") (rc.getD i 0)) (n ++ "_f1") = true := by
        rw [hasKey_dictInsert, hasKey_dictInsert, b3, Bool.true_or, Bool.true_or]
      have hlen : (Metrics.addLabel pr rc fv d i n).length = d.length := by
        unfold Metrics.addLabel
        rw [length_dictInsert, if_pos hb3, length_dictInsert, if_pos hb2,
          length_dictInsert, if_pos b1]
      have hd : distinctNew ps (n :: rest) = distinctNew (n :: ps) rest := by
        simp [distinctNew, hmem]
      rw [insertLabels_step, ih (i + 1) _ (n :: ps) hinv', hlen, hd]
    · have b1 : hasKey d (n ++ "_precision") = false :=
        bool_eq_false (fun hh => hmem (h1.mp hh))
      have b2 : hasKey d (n ++ "_recall") = false :=
        bool_eq_false (fun hh => hmem (h2.mp hh))
      have b3 : hasKey d (n ++ "_f1") = false :=
        bool_eq_false (fun hh => hmem (h3.mp hh))
      have hb2 : hasKey (dictInsert d (n ++ "_precision") (pr.getD i 0))
          (n ++ "_recall") = false := by
        rw [hasKey_dictInsert, b2, Bool.false_or]
        exact beq_eq_false_iff_ne.mpr (key_precision_ne_recall n n)
      have hb3 : hasKey (dictInsert (dictInsert d (n ++ "_precision") (pr.getD i 0))
          (n ++ "_recall") (rc.getD i 0)) (n ++ "_f1") = false := by
        rw [hasKey_dictInsert, hasKey_dictInsert, b3, Bool.false_or]
        rw [beq_eq_false_iff_ne.mpr (key_precision_ne_f1 n n),
          beq_eq_false_iff_ne.mpr (key_recall_ne_f1 n n)]
        rfl
      have hlen : (Metrics.addLabel pr rc fv d i n).length = d.length + 3 := by
        unfold Metrics.addLabel
        rw [length_dictInsert, if_neg (by rw [hb3]; exact Bool.false_ne_true),
          length_dictInsert, if_neg (by rw [hb2]; exact Bool.false_ne_true),
          length_dictInsert, if_neg (by rw [b1]; exact Bool.false_ne_true)]
      have hd : distinctNew ps (n :: rest) = 1 + distinctNew (n :: ps) rest := by
        simp [distinctNew, hmem]
      rw [insertLabels_step, ih (i + 1) _ (n :: ps) hinv', hlen, hd]
      omega

theorem insertLabels_nodup (pr rc fv : List ℚ) :
    ∀ (ns : List String) (i : Nat) (d : List (String × ℚ)),
      (dictKeys d).Nodup →
      (dictKeys (Metrics.insertLabels pr rc fv i ns d)).Nodup := by
  intro ns
  induction ns with
  | nil => intro i d h; exact h
  | cons n rest ih =>
    intro i d h
    rw [insertLabels_step]
    apply ih
    unfold Metrics.addLabel
    exact nodup_dictKeys_dictInsert _ _ _
      (nodup_dictKeys_dictInsert _ _ _ (nodup_dictKeys_dictInsert _ _ _ h))

theorem lastOcc_spec :
    ∀ (ns : List String) (n : String), n ∈ ns →
      ns.getD (lastOcc n ns) "" = n
      ∧ ∀ j, lastOcc n ns < j → j < ns.length → ns.getD j "" ≠ n := by
  intro ns
  induction ns with
  | nil => intro n hn; cases hn
  | cons m rest ih =>
    intro n hn
    by_cases hr : n ∈ rest
    · have e1 : lastOcc n (m :: rest) = lastOcc n rest + 1 := by
        simp [lastOcc, hr]
      obtain ⟨ha, hb⟩ := ih n hr
      rw [e1]
      constructor
      · simpa using ha
      · intro j hj1 hj2
        match j, hj1 with
        | j' + 1, _ =>
          simp only [List.getD_cons_succ]
          exact hb j' (by omega) (by simpa using hj2)
    · have hm : n = m := by
        rcases List.mem_cons.mp hn with h | h
        · exact h
        · exact absurd h hr
      subst hm
      have e1 : lastOcc n (n :: rest) = 0 := by
        simp [lastOcc, hr]
      rw [e1]
      refine ⟨by simp, ?_⟩
      intro j hj1 hj2
      match j, hj1 with
      | j' + 1, _ =>
        simp only [List.getD_cons_succ]
        intro he
        apply hr
        have hjlen : j' < rest.length := by simpa using hj2
        rw [← he]
        rw [List.getD_eq_getElem _ _ hjlen]
        exact List.getElem_mem hjlen

theorem distinctNew_eq_card :
    ∀ (ns ps : List String), distinctNew ps ns = (ns.toFinset \ ps.toFinset).card := by
  intro ns
  induction ns with
  | nil => intro ps; simp [distinctNew]
  | cons n rest ih =>
    intro ps
    by_cases hmem : n ∈ ps
    · have h1 : n ∈ ps.toFinset := List.mem_toFinset.mpr hmem
      simp only [distinctNew, if_pos hmem, List.toFinset_cons]
      rw [ih (n :: ps), List.toFinset_cons]
      rw [Finset.insert_sdiff_of_mem _ h1, Finset.insert_eq_self.mpr h1]
      omega
    · have h1 : n ∉ ps.toFinset := fun hc => hmem (List.mem_toFinset.mp hc)
      simp only [distinctNew, if_neg hmem, List.toFinset_cons]
      rw [ih (n :: ps), List.toFinset_cons]
      rw [Finset.insert_sdiff_of_not_mem _ h1, Finset.sdiff_insert]
      by_cases h2 : n ∈ rest.toFinset \ ps.toFinset
      · rw [Finset.card_erase_of_mem h2, Finset.insert_eq_self.mpr h2]
        have hpos := Finset.card_pos.mpr ⟨n, h2⟩
        omega
      · rw [Finset.erase_eq_of_not_mem h2, Finset.card_insert_of_not_mem h2]
        omega

/-! ## Pointwise characterisation of the per-class metric vectors -/

theorem length_gt_count (m : List (List ℚ)) : (Metrics.gt_count m).length = m.length := by
  simp [Metrics.gt_count]

theorem length_pred_count (m : List (List ℚ)) :
    (Metrics.pred_count m).length = m.length := by
  simp [Metrics.pred_count]

theorem length_true_pos (m : List (List ℚ)) : (Metrics.true_pos m).length = m.length := by
  simp [Metrics.true_pos]

theorem length_precision (m : List (List ℚ)) (eps : ℚ) :
    (Metrics.precision m eps).length = m.length := by
  simp [Metrics.precision, length_true_pos, length_pred_count]

theorem length_recall' (m : List (List ℚ)) (eps : ℚ) :
    (Metrics.recall' m eps).length = m.length := by
  simp [Metrics.recall', length_true_pos, length_gt_count]

theorem length_f1 (m : List (List ℚ)) (eps : ℚ) :
    (Metrics.f1 m eps).length = m.length := by
  simp [Metrics.f1, length_precision, length_recall']

theorem true_pos_getD (m : List (List ℚ)) (i : Nat) (h : i < m.length) :
    (Metrics.true_pos m).getD i 0 = (m.getD i []).getD i 0 := by
  rw [List.getD_eq_getElem _ _ (by rw [length_true_pos]; exact h)]
  simp [Metrics.true_pos]

theorem gt_count_getD (m : List (List ℚ)) (i : Nat) (h : i < m.length) :
    (Metrics.gt_count m).getD i 0 = (m.getD i []).sum := by
  rw [List.getD_eq_getElem _ _ (by rw [length_gt_count]; exact h),
    List.getD_eq_getElem _ _ h]
  simp [Metrics.gt_count]

theorem pred_count_getD (m : List (List ℚ)) (i : Nat) (h : i < m.length) :
    (Metrics.pred_count m).getD i 0 = (m.map (fun row => row.getD i 0)).sum := by
  rw [List.getD_eq_getElem _ _ (by rw [length_pred_count]; exact h)]
  simp [Metrics.pred_count]

theorem precision_getD (m : List (List ℚ)) (eps : ℚ) (i : Nat) (h : i < m.length) :
    (Metrics.precision m eps).getD i 0 =
      (Metrics.true_pos m).getD i 0 / max ((Metrics.pred_count m).getD i 0) eps := by
  rw [List.getD_eq_getElem _ _ (by rw [length_precision]; exact h)]
  unfold Metrics.precision
  rw [List.getElem_zipWith]
  rw [List.getD_eq_getElem _ _ (by rw [length_true_pos]; exact h),
    List.getD_eq_getElem _ _ (by rw [length_pred_count]; exact h)]

theorem recall'_getD (m : List (List ℚ)) (eps : ℚ) (i : Nat) (h : i < m.length) :
    (Metrics.recall' m eps).getD i 0 =
      (Metrics.true_pos m).getD i 0 / max ((Metrics.gt_count m).getD i 0) eps := by
  rw [List.getD_eq_getElem _ _ (by rw [length_recall']; exact h)]
  unfold Metrics.recall'
  rw [List.getElem_zipWith]
  rw [List.getD_eq_getElem _ _ (by rw [length_true_pos]; exact h),
    List.getD_eq_getElem _ _ (by rw [length_gt_count]; exact h)]

theorem f1_getD (m : List (List ℚ)) (eps : ℚ) (i : Nat) (h : i < m.length) :
    (Metrics.f1 m eps).getD i 0 =
      2 * (Metrics.precision m eps).getD i 0 * (Metrics.recall' m eps).getD i 0 /
        max ((Metrics.precision m eps).getD i 0 + (Metrics.recall' m eps).getD i 0) eps := by
  rw [List.getD_eq_getElem _ _ (by rw [length_f1]; exact h)]
  unfold Metrics.f1
  rw [List.getElem_zipWith]
  rw [List.getD_eq_getElem _ _ (by rw [length_precision]; exact h),
    List.getD_eq_getElem _ _ (by rw [length_recall']; exact h)]

theorem dictLookup_base_avg_f1 (m : List (List ℚ)) (eps : ℚ) :
    dictLookup (Metrics.baseMetrics m eps) "avg_f1" = some (Metrics.weighted_f1 m eps) := by
  simp [Metrics.baseMetrics, dictLookup]

theorem lookup_avg_f1 (m : List (List ℚ)) (names : List String) (eps : ℚ)
    (havg : "avg" ∉ names) :
    dictLookup (compute_conf_mat_metrics m names eps) "avg_f1" =
      some (Metrics.weighted_f1 m eps) := by
  have hcond : ∀ n ∈ names,
      ("avg_f1" : String) ≠ n ++ "_precision" ∧ ("avg_f1" : String) ≠ n ++ "_recall"
      ∧ ("avg_f1" : String) ≠ n ++ "_f1" := by
    intro n hn
    refine ⟨?_, ?_, ?_⟩
    · rw [avg_f1_eq]
      exact (key_precision_ne_f1 n "avg").symm
    · rw [avg_f1_eq]
      exact (key_recall_ne_f1 n "avg").symm
    · rw [avg_f1_eq]
      intro e
      apply havg
      rw [string_append_cancel_right e]
      exact hn
  unfold compute_conf_mat_metrics
  rw [insertLabels_lookup_frozen _ _ _ _ names 0 _ hcond, dictLookup_base_avg_f1]

theorem precision_zeroMat (n : Nat) (eps : ℚ) (j : Nat) :
    (Metrics.precision (zeroMat n) eps).getD j 0 = 0 := by
  have hl : (zeroMat n).length = n := by simp [zeroMat]
  by_cases h : j < n
  · rw [precision_getD _ _ _ (by rw [hl]; exact h)]
    rw [true_pos_getD _ _ (by rw [hl]; exact h)]
    simp [zeroMat, List.getElem?_replicate, h]
  · rw [List.getD_eq_default]
    rw [length_precision, hl]
    omega

theorem recall'_zeroMat (n : Nat) (eps : ℚ) (j : Nat) :
    (Metrics.recall' (zeroMat n) eps).getD j 0 = 0 := by
  have hl : (zeroMat n).length = n := by simp [zeroMat]
  by_cases h : j < n
  · rw [recall'_getD _ _ _ (by rw [hl]; exact h)]
    rw [true_pos_getD _ _ (by rw [hl]; exact h)]
    simp [zeroMat, List.getElem?_replicate, h]
  · rw [List.getD_eq_default]
    rw [length_recall', hl]
    omega

theorem f1_zeroMat (n : Nat) (eps : ℚ) (j : Nat) :
    (Metrics.f1 (zeroMat n) eps).getD j 0 = 0 := by
  have hl : (zeroMat n).length = n := by simp [zeroMat]
  by_cases h : j < n
  · rw [f1_getD _ _ _ (by rw [hl]; exact h), precision_zeroMat, recall'_zeroMat]
    simp
  · rw [List.getD_eq_default]
    rw [length_f1, hl]
    omega

theorem hasKey_baseMetrics (m : List (List ℚ)) (eps : ℚ) (k : String) :
    hasKey (Metrics.baseMetrics m eps) k = true ↔
      (k = "avg_precision" ∨ k = "avg_recall" ∨ k = "avg_f1") := by
  rw [hasKey_iff_mem]
  simp [Metrics.baseMetrics, dictKeys]

/-- Claim C1: `compute_conf_mat_metrics` computes, for each class `i`,
`precision[i] = true_pos[i] / max(pred_count[i], eps)`,
`recall[i] = true_pos[i] / max(gt_count[i], eps)`,
`f1[i] = 2*precision[i]*recall[i] / max(precision[i]+recall[i], eps)`, and
`avg_f1 = 2*avg_precision*avg_recall / max(avg_precision+avg_recall, eps)`
from the weighted-averaged precision and recall; in particular on the matrix
`[[5,1],[2,10]]` with labels `["neg","pos"]` and `eps = 1e-6` it reports
`neg_precision = 5/7`, `pos_precision = 10/11`, `neg_recall = 5/6`,
`pos_recall = 10/12`. -/
theorem claim_C1 (m : List (List ℚ)) (label_names : List String) (eps : ℚ) (i : Nat)
    (hsq : ∀ row ∈ m, row.length = m.length) (hlen : label_names.length = m.length)
    (hi : i < m.length) (havg : "avg" ∉ label_names) :
    (Metrics.precision m eps).getD i 0 =
        (Metrics.true_pos m).getD i 0 / max ((Metrics.pred_count m).getD i 0) eps
    ∧ (Metrics.recall' m eps).getD i 0 =
        (Metrics.true_pos m).getD i 0 / max ((Metrics.gt_count m).getD i 0) eps
    ∧ (Metrics.f1 m eps).getD i 0 =
        2 * (Metrics.precision m eps).getD i 0 * (Metrics.recall' m eps).getD i 0 /
          max ((Metrics.precision m eps).getD i 0 + (Metrics.recall' m eps).getD i 0) eps
    ∧ dictLookup (compute_conf_mat_metrics m label_names eps) "avg_f1" =
        some (2 * Metrics.weighted_precision m eps * Metrics.weighted_recall m eps /
          max (Metrics.weighted_precision m eps + Metrics.weighted_recall m eps) eps)
    ∧ dictLookup (compute_conf_mat_metrics [[5, 1], [2, 10]] ["neg", "pos"] (1 / 1000000))
        "neg_precision" = some (5 / 7)
    ∧ dictLookup (compute_conf_mat_metrics [[5, 1], [2, 10]] ["neg", "pos"] (1 / 1000000))
        "pos_precision" = some (10 / 11)
    ∧ dictLookup (compute_conf_mat_metrics [[5, 1], [2, 10]] ["neg", "pos"] (1 / 1000000))
        "neg_recall" = some (5 / 6)
    ∧ dictLookup (compute_conf_mat_metrics [[5, 1], [2, 10]] ["neg", "pos"] (1 / 1000000))
        "pos_recall" = some (10 / 12) := by
  refine ⟨precision_getD m eps i hi, recall'_getD m eps i hi, f1_getD m eps i hi,
    ?_, ?_, ?_, ?_, ?_⟩
  · rw [lookup_avg_f1 m label_names eps havg]
    rfl
  all_goals
    norm_num +decide [compute_conf_mat_metrics, Metrics.insertLabels, Metrics.addLabel,
      Metrics.baseMetrics, Metrics.precision, Metrics.recall', Metrics.f1, Metrics.true_pos,
      Metrics.pred_count, Metrics.gt_count, Metrics.total, Metrics.weights,
      Metrics.weighted_precision, Metrics.weighted_recall, Metrics.weighted_f1, dictInsert,
      dictLookup, List.range_succ, max_def]

theorem claim_C1_witness :
    (∀ row ∈ [[(5 : ℚ), 1], [2, 10]], row.length = [[(5 : ℚ), 1], [2, 10]].length)
    ∧ ([("neg" : String), "pos"]).length = [[(5 : ℚ), 1], [2, 10]].length
    ∧ 0 < [[(5 : ℚ), 1], [2, 10]].length
    ∧ ("avg" : String) ∉ [("neg" : String), "pos"]
    ∧ dictLookup (compute_conf_mat_metrics [[5, 1], [2, 10]] ["neg", "pos"] (1 / 1000000))
        "neg_precision" = some (5 / 7) :=
  ⟨by decide, by decide, by decide, by decide,
    (claim_C1 [[5, 1], [2, 10]] ["neg", "pos"] (1 / 1000000) 0 (by decide) (by decide)
      (by decide) (by decide)).2.2.2.2.1⟩

/-- Claim C3: on an all-zero confusion matrix, every per-class precision,
recall and f1 value in the report equals 0 (the epsilon floor makes each
quotient 0/eps). -/
theorem claim_C3 (n : Nat) (names : List String) (eps : ℚ) (heps : 0 < eps)
    (hlen : names.length = n) (name : String) (hname : name ∈ names) :
    dictLookup (compute_conf_mat_metrics (zeroMat n) names eps) (name ++ "_precision") =
        some 0
    ∧ dictLookup (compute_conf_mat_metrics (zeroMat n) names eps) (name ++ "_recall") =
        some 0
    ∧ dictLookup (compute_conf_mat_metrics (zeroMat n) names eps) (name ++ "_f1") =
        some 0 := by
  obtain ⟨e1, e2, e3⟩ := insertLabels_lookup_mem (Metrics.precision (zeroMat n) eps)
    (Metrics.recall' (zeroMat n) eps) (Metrics.f1 (zeroMat n) eps) names 0
    (Metrics.baseMetrics (zeroMat n) eps) name hname
  unfold compute_conf_mat_metrics
  rw [e1, e2, e3, precision_zeroMat, recall'_zeroMat, f1_zeroMat]
  exact ⟨rfl, rfl, rfl⟩

theorem claim_C3_witness :
    (0 : ℚ) < 1
    ∧ ([("a" : String), "b"]).length = 2
    ∧ ("a" : String) ∈ [("a" : String), "b"]
    ∧ dictLookup (compute_conf_mat_metrics (zeroMat 2) ["a", "b"] 1) ("a" ++ "_precision") =
        some 0 :=
  ⟨by decide, by decide, by decide,
    (claim_C3 2 ["a", "b"] 1 (by decide) (by decide) "a" (by decide)).1⟩

/-- Claim C9 counterexample: with the duplicate label-name list
`["avg", "avg"]` the report has 3 entries, not `3 + 3 * 1` as the claim
predicts for one distinct name, because the generated keys collide with the
`avg_precision` / `avg_recall` / `avg_f1` keys. -/
theorem claim_C9_counterexample :
    (compute_conf_mat_metrics [[1, 0], [0, 1]] ["avg", "avg"] (1 / 1000000)).length = 3
    ∧ (["avg", "avg"] : List String).toFinset.card = 1
    ∧ (3 : Nat) ≠ 3 + 3 * 1 := by
  refine ⟨?_, by decide, by decide⟩
  norm_num +decide [compute_conf_mat_metrics, Metrics.insertLabels, Metrics.addLabel,
    Metrics.baseMetrics, dictInsert]

/-- Claim C9 (amended): provided no label name is the string `"avg"`, the
report produced by `compute_conf_mat_metrics` has pairwise-distinct keys,
contains exactly `3 + 3 * (number of distinct names)` entries, and for each
name the three per-label keys hold the metric values of the last
(highest-index) occurrence of that name. -/
theorem claim_C9 (m : List (List ℚ)) (names : List String) (eps : ℚ)
    (havg : "avg" ∉ names) :
    (dictKeys (compute_conf_mat_metrics m names eps)).Nodup
    ∧ (compute_conf_mat_metrics m names eps).length = 3 + 3 * names.toFinset.card
    ∧ ∀ name ∈ names,
        names.getD (lastOcc name names) "" = name
        ∧ (∀ j, lastOcc name names < j → j < names.length → names.getD j "" ≠ name)
        ∧ dictLookup (compute_conf_mat_metrics m names eps) (name ++ "_precision") =
            some ((Metrics.precision m eps).getD (lastOcc name names) 0)
        ∧ dictLookup (compute_conf_mat_metrics m names eps) (name ++ "_recall") =
            some ((Metrics.recall' m eps).getD (lastOcc name names) 0)
        ∧ dictLookup (compute_conf_mat_metrics m names eps) (name ++ "_f1") =
            some ((Metrics.f1 m eps).getD (lastOcc name names) 0) := by
  refine ⟨?_, ?_, ?_⟩
  · unfold compute_conf_mat_metrics
    apply insertLabels_nodup
    simp [Metrics.baseMetrics, dictKeys]
  · unfold compute_conf_mat_metrics
    have hinv : ∀ n ∈ names,
        ((hasKey (Metrics.baseMetrics m eps) (n ++ "_precision") = true) ↔ n ∈ ([] : List String))
        ∧ ((hasKey (Metrics.baseMetrics m eps) (n ++ "_recall") = true) ↔ n ∈ ([] : List String))
        ∧ ((hasKey (Metrics.baseMetrics m eps) (n ++ "_f1") = true) ↔ n ∈ ([] : List String)) := by
      intro n hn
      have hne : n ≠ "avg" := fun e => havg (e ▸ hn)
      refine ⟨?_, ?_, ?_⟩
      · rw [hasKey_baseMetrics]
        simp only [List.not_mem_nil, iff_false]
        rintro (h | h | h)
        · rw [avg_precision_eq] at h
          exact hne (string_append_cancel_right h)
        · rw [avg_recall_eq] at h
          exact key_precision_ne_recall n "avg" h
        · rw [avg_f1_eq] at h
          exact key_precision_ne_f1 n "avg" h
      · rw [hasKey_baseMetrics]
        simp only [List.not_mem_nil, iff_false]
        rintro (h | h | h)
        · rw [avg_precision_eq] at h
          exact key_precision_ne_recall "avg" n h.symm
        · rw [avg_recall_eq] at h
          exact hne (string_append_cancel_right h)
        · rw [avg_f1_eq] at h
          exact key_recall_ne_f1 n "avg" h
      · rw [hasKey_baseMetrics]
        simp only [List.not_mem_nil, iff_false]
        rintro (h | h | h)
        · rw [avg_precision_eq] at h
          exact key_precision_ne_f1 "avg" n h.symm
        · rw [avg_recall_eq] at h
          exact key_recall_ne_f1 "avg" n h.symm
        · rw [avg_f1_eq] at h
          exact hne (string_append_cancel_right h)
    rw [insertLabels_length _ _ _ names 0 _ [] hinv]
    rw [distinctNew_eq_card]
    simp [Metrics.baseMetrics]
  · intro name hname
    obtain ⟨e1, e2, e3⟩ := insertLabels_lookup_mem (Metrics.precision m eps)
      (Metrics.recall' m eps) (Metrics.f1 m eps) names 0 (Metrics.baseMetrics m eps)
      name hname
    obtain ⟨s1, s2⟩ := lastOcc_spec names name hname
    rw [show (0 + lastOcc name names) = lastOcc name names from by omega] at e1 e2 e3
    exact ⟨s1, s2, by unfold compute_conf_mat_metrics; rw [e1],
      by unfold compute_conf_mat_metrics; rw [e2],
      by unfold compute_conf_mat_metrics; rw [e3]⟩

theorem claim_C9_witness :
    ("avg" : String) ∉ [("x" : String), "y", "x"]
    ∧ (compute_conf_mat_metrics [[1, 0], [0, 1]] ["x", "y", "x"] 1).length =
        3 + 3 * ([("x" : String), "y", "x"]).toFinset.card :=
  ⟨by decide,
    (claim_C9 [[1, 0], [0, 1]] ["x", "y", "x"] 1 (by decide)).2.1⟩

/-- Claim C4: for confusion matrices with non-negative entries, positive
diagonal and positive row and column sums, each per-class precision, recall
and f1 value lies in `[0, 1]`. -/
theorem claim_C4 (m : List (List ℚ)) (eps : ℚ) (i : Nat)
    (hsq : ∀ row ∈ m, row.length = m.length)
    (hnn : ∀ row ∈ m, ∀ x ∈ row, 0 ≤ x)
    (hdiag : ∀ j, j < m.length → 0 < (Metrics.true_pos m).getD j 0)
    (hrow : ∀ j, j < m.length → 0 < (Metrics.gt_count m).getD j 0)
    (hcol : ∀ j, j < m.length → 0 < (Metrics.pred_count m).getD j 0)
    (hi : i < m.length) :
    (0 ≤ (Metrics.precision m eps).getD i 0 ∧ (Metrics.precision m eps).getD i 0 ≤ 1)
    ∧ (0 ≤ (Metrics.recall' m eps).getD i 0 ∧ (Metrics.recall' m eps).getD i 0 ≤ 1)
    ∧ (0 ≤ (Metrics.f1 m eps).getD i 0 ∧ (Metrics.f1 m eps).getD i 0 ≤ 1) := by
  have htp : 0 < (Metrics.true_pos m).getD i 0 := hdiag i hi
  have hpc : 0 < (Metrics.pred_count m).getD i 0 := hcol i hi
  have hgc : 0 < (Metrics.gt_count m).getD i 0 := hrow i hi
  have hrow_i : m.getD i [] = m[i] := List.getD_eq_getElem m [] hi
  have hmem_row : m[i] ∈ m := List.getElem_mem hi
  have htp_le_pc :
      (Metrics.true_pos m).getD i 0 ≤ (Metrics.pred_count m).getD i 0 := by
    rw [true_pos_getD m i hi, pred_count_getD m i hi]
    apply List.single_le_sum
    · intro x hx
      obtain ⟨row, hrm, rfl⟩ := List.mem_map.mp hx
      by_cases hlt : i < row.length
      · rw [List.getD_eq_getElem row 0 hlt]
        exact hnn row hrm _ (List.getElem_mem hlt)
      · rw [List.getD_eq_default row 0 (by omega)]
    · rw [hrow_i]
      exact List.mem_map.mpr ⟨m[i], hmem_row, rfl⟩
  have htp_le_gc :
      (Metrics.true_pos m).getD i 0 ≤ (Metrics.gt_count m).getD i 0 := by
    rw [true_pos_getD m i hi, gt_count_getD m i hi, hrow_i]
    apply List.single_le_sum
    · intro x hx
      exact hnn m[i] hmem_row x hx
    · have hlen_i : (m[i]).length = m.length := hsq m[i] hmem_row
      rw [List.getD_eq_getElem _ 0 (by rw [hlen_i]; exact hi)]
      exact List.getElem_mem _
  have hmaxpc : 0 < max ((Metrics.pred_count m).getD i 0) eps :=
    lt_of_lt_of_le hpc (le_max_left _ _)
  have hmaxgc : 0 < max ((Metrics.gt_count m).getD i 0) eps :=
    lt_of_lt_of_le hgc (le_max_left _ _)
  have hp_eq := precision_getD m eps i hi
  have hr_eq := recall'_getD m eps i hi
  have hpp : 0 < (Metrics.precision m eps).getD i 0 := by
    rw [hp_eq]
    exact div_pos htp hmaxpc
  have hrp : 0 < (Metrics.recall' m eps).getD i 0 := by
    rw [hr_eq]
    exact div_pos htp hmaxgc
  have hp1 : (Metrics.precision m eps).getD i 0 ≤ 1 := by
    rw [hp_eq, div_le_one hmaxpc]
    exact le_trans htp_le_pc (le_max_left _ _)
  have hr1 : (Metrics.recall' m eps).getD i 0 ≤ 1 := by
    rw [hr_eq, div_le_one hmaxgc]
    exact le_trans htp_le_gc (le_max_left _ _)
  have hf_eq := f1_getD m eps i hi
  have hsum_pos : 0 < (Metrics.precision m eps).getD i 0 +
      (Metrics.recall' m eps).getD i 0 := add_pos hpp hrp
  have hmaxf : 0 < max ((Metrics.precision m eps).getD i 0 +
      (Metrics.recall' m eps).getD i 0) eps :=
    lt_of_lt_of_le hsum_pos (le_max_left _ _)
  have hf0 : 0 ≤ (Metrics.f1 m eps).getD i 0 := by
    rw [hf_eq]
    exact div_nonneg
      (mul_nonneg (mul_nonneg (by norm_num) hpp.le) hrp.le) hmaxf.le
  have hf1 : (Metrics.f1 m eps).getD i 0 ≤ 1 := by
    rw [hf_eq, div_le_one hmaxf]
    have h2pr : 2 * (Metrics.precision m eps).getD i 0 *
        (Metrics.recall' m eps).getD i 0 ≤
        (Metrics.precision m eps).getD i 0 + (Metrics.recall' m eps).getD i 0 := by
      nlinarith [mul_nonneg hpp.le (sub_nonneg.mpr hr1),
        mul_nonneg hrp.le (sub_nonneg.mpr hp1)]
    exact le_trans h2pr (le_max_left _ _)
  exact ⟨⟨hpp.le, hp1⟩, ⟨hrp.le, hr1⟩, ⟨hf0, hf1⟩⟩

theorem exampleMat_pos_facts :
    (∀ j, j < ([[(5 : ℚ), 1], [2, 10]] : List (List ℚ)).length →
      0 < (Metrics.true_pos [[(5 : ℚ), 1], [2, 10]]).getD j 0)
    ∧ (∀ j, j < ([[(5 : ℚ), 1], [2, 10]] : List (List ℚ)).length →
      0 < (Metrics.gt_count [[(5 : ℚ), 1], [2, 10]]).getD j 0)
    ∧ (∀ j, j < ([[(5 : ℚ), 1], [2, 10]] : List (List ℚ)).length →
      0 < (Metrics.pred_count [[(5 : ℚ), 1], [2, 10]]).getD j 0) := by
  refine ⟨?_, ?_, ?_⟩ <;>
    · intro j hj
      have hj2 : j < 2 := by simpa using hj
      interval_cases j <;>
        norm_num [Metrics.true_pos, Metrics.gt_count, Metrics.pred_count, List.range_succ]

theorem claim_C4_witness :
    (∀ row ∈ ([[(5 : ℚ), 1], [2, 10]] : List (List ℚ)),
        row.length = ([[(5 : ℚ), 1], [2, 10]] : List (List ℚ)).length)
    ∧ (∀ row ∈ ([[(5 : ℚ), 1], [2, 10]] : List (List ℚ)), ∀ x ∈ row, 0 ≤ x)
    ∧ 0 < ([[(5 : ℚ), 1], [2, 10]] : List (List ℚ)).length
    ∧ (0 ≤ (Metrics.precision [[(5 : ℚ), 1], [2, 10]] (1 / 1000000)).getD 0 0
        ∧ (Metrics.precision [[(5 : ℚ), 1], [2, 10]] (1 / 1000000)).getD 0 0 ≤ 1)
      ∧ (0 ≤ (Metrics.recall' [[(5 : ℚ), 1], [2, 10]] (1 / 1000000)).getD 0 0
        ∧ (Metrics.recall' [[(5 : ℚ), 1], [2, 10]] (1 / 1000000)).getD 0 0 ≤ 1)
      ∧ (0 ≤ (Metrics.f1 [[(5 : ℚ), 1], [2, 10]] (1 / 1000000)).getD 0 0
        ∧ (Metrics.f1 [[(5 : ℚ), 1], [2, 10]] (1 / 1000000)).getD 0 0 ≤ 1) :=
  ⟨by decide, by decide, by decide,
    claim_C4 [[5, 1], [2, 10]] (1 / 1000000) 0 (by decide) (by decide)
      exampleMat_pos_facts.1 exampleMat_pos_facts.2.1 exampleMat_pos_facts.2.2
      (by decide)⟩

/-- Claim C7: `validate_albumentation_transform` raises a configuration error
with the canonical-serializer message if and only if its input is present and
fails to deserialize; in every non-raising case (including absent input) it
returns its input unchanged. -/
theorem claim_C7 {α : Type} (from_dict : α → Except String Unit) (tf : Option α) :
    ((validate_albumentation_transform from_dict tf = Except.error configErrorMsg) ↔
      (∃ d, tf = some d ∧ ∃ e, from_dict d = Except.error e))
    ∧ (∀ e, validate_albumentation_transform from_dict tf = Except.error e →
        e = configErrorMsg)
    ∧ (∀ r, validate_albumentation_transform from_dict tf = Except.ok r → r = tf) := by
  refine ⟨⟨?_, ?_⟩, ?_, ?_⟩
  · intro h
    cases tf with
    | none => simp [validate_albumentation_transform] at h
    | some d =>
      cases hfd : from_dict d with
      | ok u => simp [validate_albumentation_transform, hfd] at h
      | error e => exact ⟨d, rfl, e, hfd⟩
  · rintro ⟨d, rfl, e, hfd⟩
    simp [validate_albumentation_transform, hfd]
  · intro e he
    cases tf with
    | none => simp [validate_albumentation_transform] at he
    | some d =>
      cases hfd : from_dict d with
      | ok u => simp [validate_albumentation_transform, hfd] at he
      | error e' =>
        simp [validate_albumentation_transform, hfd] at he
        exact he.symm
  · intro r hr
    cases tf with
    | none =>
      simp [validate_albumentation_transform] at hr
      exact hr.symm
    | some d =>
      cases hfd : from_dict d with
      | ok u =>
        simp [validate_albumentation_transform, hfd] at hr
        exact hr.symm
      | error e' => simp [validate_albumentation_transform, hfd] at hr

theorem claim_C7_witness :
    validate_albumentation_transform
        (fun d : Nat => if d = 0 then Except.error "bad" else Except.ok ()) (some 0) =
      Except.error configErrorMsg :=
  (claim_C7 (fun d : Nat => if d = 0 then Except.error "bad" else Except.ok ())
    (some 0)).1.mpr ⟨0, rfl, "bad", rfl⟩

/-- Claim C8: `Parallel.forward` broadcasts a single tensor input to all
branches, applies each branch to the matching element of a sequence input of
the right length, and fails (assertion) on a sequence input whose length
differs from the number of branches. -/
theorem claim_C8 {α β : Type} (modules : List (α → β)) :
    (∀ x : α, Parallel.forward modules (ParallelInput.tensor x) =
        some (modules.map (fun m => m x))
      ∧ (modules.map (fun m => m x)).length = modules.length)
    ∧ (∀ xs : List α, xs.length = modules.length →
        Parallel.forward modules (ParallelInput.seq xs) =
          some (List.zipWith (fun m x => m x) modules xs)
        ∧ (List.zipWith (fun m x => m x) modules xs).length = modules.length)
    ∧ (∀ xs : List α, xs.length ≠ modules.length →
        Parallel.forward modules (ParallelInput.seq xs) = none) := by
  refine ⟨fun x => ⟨rfl, by simp⟩, fun xs h => ⟨?_, ?_⟩, fun xs h => ?_⟩
  · simp [Parallel.forward, h]
  · simp [List.length_zipWith, h]
  · simp [Parallel.forward, h]

theorem claim_C8_witness :
    (([(1 : Int)] : List Int).length ≠
      ([fun x : Int => x + 1, fun x : Int => 2 * x]).length)
    ∧ Parallel.forward [fun x : Int => x + 1, fun x : Int => 2 * x]
        (ParallelInput.seq [(1 : Int)]) = none :=
  ⟨by decide,
    (claim_C8 [fun x : Int => x + 1, fun x : Int => 2 * x]).2.2 [(1 : Int)] (by decide)⟩

theorem fold_tvAdd_tensor (n : Nat) (ts : List (List ℚ)) :
    ∀ (acc : List ℚ), acc.length = n → (∀ u ∈ ts, u.length = n) →
      List.foldl tvAdd (TVal.tensor acc) (ts.map TVal.tensor) =
        TVal.tensor ((List.range n).map
          (fun i => acc.getD i 0 + (ts.map (fun u => u.getD i 0)).sum)) := by
  induction ts with
  | nil =>
    intro acc hacc _
    simp only [List.map_nil, List.foldl_nil, List.sum_nil, add_zero]
    congr 1
    apply List.ext_getElem
    · simp [hacc]
    · intro j h1 h2
      simp only [List.getElem_map, List.getElem_range]
      rw [List.getD_eq_getElem acc 0 (by omega)]
  | cons u rest ih =>
    intro acc hacc hts
    have hu : u.length = n := hts u (List.mem_cons_self u rest)
    have hrest : ∀ v ∈ rest, v.length = n :=
      fun v hv => hts v (List.mem_cons_of_mem u hv)
    have hz : (List.zipWith (fun a b => a + b) acc u).length = n := by
      simp [List.length_zipWith, hacc, hu]
    simp only [List.map_cons, List.foldl_cons]
    rw [show tvAdd (TVal.tensor acc) (TVal.tensor u) =
        TVal.tensor (List.zipWith (fun a b => a + b) acc u) from rfl]
    rw [ih _ hz hrest]
    congr 1
    apply List.map_congr_left
    intro j hj
    have hjn : j < n := List.mem_range.mp hj
    rw [List.getD_eq_getElem _ 0 (by omega : j < (List.zipWith (fun a b => a + b) acc u).length),
      List.getElem_zipWith]
    rw [List.getD_eq_getElem acc 0 (by omega), List.getD_eq_getElem u 0 (by omega)]
    simp only [List.map_cons, List.sum_cons]
    ring

/-- Claim C10: `AddTensors.forward` on an empty sequence returns the int `0`
(the built-in `sum`'s start value), not a tensor; on a non-empty sequence of
same-shape tensors it returns their elementwise sum. -/
theorem claim_C10 :
    (AddTensors.forward [] = TVal.int 0 ∧ ∀ t, AddTensors.forward [] ≠ TVal.tensor t)
    ∧ ∀ (t : List ℚ) (ts : List (List ℚ)), (∀ u ∈ ts, u.length = t.length) →
        AddTensors.forward ((t :: ts).map TVal.tensor) =
          TVal.tensor (elemwiseSum (t :: ts) t.length) := by
  constructor
  · exact ⟨rfl, fun t h => by simp [AddTensors.forward] at h⟩
  · intro t ts hts
    unfold AddTensors.forward
    simp only [List.map_cons, List.foldl_cons]
    rw [show tvAdd (TVal.int 0) (TVal.tensor t) =
        TVal.tensor (t.map (fun x => ((0 : Int) : ℚ) + x)) from rfl]
    have ht : t.map (fun x => ((0 : Int) : ℚ) + x) = t := by
      simp
    rw [ht, fold_tvAdd_tensor t.length ts t rfl hts]
    unfold elemwiseSum
    congr 1

theorem claim_C10_witness :
    (∀ u ∈ ([[(3 : ℚ), 4]] : List (List ℚ)), u.length = ([(1 : ℚ), 2]).length)
    ∧ AddTensors.forward (([[(1 : ℚ), 2], [3, 4]] : List (List ℚ)).map TVal.tensor) =
        TVal.tensor (elemwiseSum [[(1 : ℚ), 2], [3, 4]] ([(1 : ℚ), 2]).length) :=
  ⟨by decide, claim_C10.2 [1, 2] [[3, 4]] (by decide)⟩

/-! ## Broadcast-shape computations and the 1-d reduction of compute_conf_mat -/

theorem bd_self (a : Nat) : broadcastDim a a = some a := by
  simp [broadcastDim]

theorem bd_one_right (a : Nat) : broadcastDim a 1 = some a := by
  by_cases h : a = 1 <;> simp [broadcastDim, h]

theorem bs1 (n L : Nat) : broadcastShape [n] [L, 1] = some [L, n] := by
  simp [broadcastShape, broadcastShapeRev, bd_one_right]

theorem bs2 (n L : Nat) : broadcastShape [n] [L, 1, 1] = some [L, 1, n] := by
  simp [broadcastShape, broadcastShapeRev, bd_one_right]

theorem bs3 (n L : Nat) : broadcastShape [L, n] [L, 1, n] = some [L, L, n] := by
  simp [broadcastShape, broadcastShapeRev, bd_one_right, bd_self]

theorem align_coord {d c : Nat} (h : c < d) : (if d = 1 then 0 else c) = c := by
  split
  · omega
  · rfl

theorem and_entry_1d (xs ys : List Int) (L g p j : Nat) (hg : g < L) (hp : p < L)
    (hj : j < xs.length) (hjy : j < ys.length) :
    ewiseGet (fun a b => if a ≠ 0 ∧ b ≠ 0 then 1 else 0)
      (Tensor.mk [L, xs.length] (ewiseGet (fun a b => if a = b then 1 else 0) (tensor1d xs)
        (unsqueezeLast (arange L))))
      (Tensor.mk [L, 1, ys.length] (ewiseGet (fun a b => if a = b then 1 else 0) (tensor1d ys)
        (unsqueezeLast (unsqueezeLast (arange L)))))
      [g, p, j] =
      (if xs.getD j 0 = Int.ofNat p ∧ ys.getD j 0 = Int.ofNat g then (1 : Int) else 0) := by
  have cp : (if L = 1 then 0 else p) = p := align_coord hp
  have cg : (if L = 1 then 0 else g) = g := align_coord hg
  have cj : (if xs.length = 1 then 0 else j) = j := align_coord hj
  have cjy : (if ys.length = 1 then 0 else j) = j := align_coord hjy
  simp only [ewiseGet, tensor1d, unsqueezeLast, arange, alignIdx]
  simp [cp, cg, cj, cjy]

theorem sumDim_shape2 (s1 s2 s3 : Nat) (f : List Nat → Int) :
    (sumDim (Tensor.mk [s1, s2, s3] f) 2).shape = [s1, s2] := rfl

theorem sumDim_get2 (s1 s2 s3 : Nat) (f : List Nat → Int) (g p : Nat) :
    (sumDim (Tensor.mk [s1, s2, s3] f) 2).get [g, p] =
      ((List.range s3).map (fun j => f [g, p, j])).sum := rfl

theorem conf_mat_1d (xs ys : List Int) (L g p : Nat)
    (hlen : ys.length = xs.length) (hg : g < L) (hp : p < L) :
    (compute_conf_mat (tensor1d xs) (tensor1d ys) L).map Tensor.shape = some [L, L]
    ∧ matEntry (compute_conf_mat (tensor1d xs) (tensor1d ys) L) g p =
        some (((List.range xs.length).map (fun j =>
          if xs.getD j 0 = Int.ofNat p ∧ ys.getD j 0 = Int.ofNat g then (1 : Int) else 0)).sum) := by
  have e1 : eqT (tensor1d xs) (unsqueezeLast (arange L)) =
      some (Tensor.mk [L, xs.length] (ewiseGet (fun a b => if a = b then 1 else 0)
        (tensor1d xs) (unsqueezeLast (arange L)))) := by
    show (broadcastShape [xs.length] [L, 1]).map _ = _
    rw [bs1]
    rfl
  have e2 : eqT (tensor1d ys) (unsqueezeLast (unsqueezeLast (arange L))) =
      some (Tensor.mk [L, 1, ys.length] (ewiseGet (fun a b => if a = b then 1 else 0)
        (tensor1d ys) (unsqueezeLast (unsqueezeLast (arange L))))) := by
    show (broadcastShape [ys.length] [L, 1, 1]).map _ = _
    rw [bs2]
    rfl
  have e3 : andT (Tensor.mk [L, xs.length] (ewiseGet (fun a b => if a = b then 1 else 0)
        (tensor1d xs) (unsqueezeLast (arange L))))
      (Tensor.mk [L, 1, ys.length] (ewiseGet (fun a b => if a = b then 1 else 0)
        (tensor1d ys) (unsqueezeLast (unsqueezeLast (arange L))))) =
      some (Tensor.mk [L, L, xs.length]
        (ewiseGet (fun a b => if a ≠ 0 ∧ b ≠ 0 then 1 else 0)
          (Tensor.mk [L, xs.length] (ewiseGet (fun a b => if a = b then 1 else 0)
            (tensor1d xs) (unsqueezeLast (arange L))))
          (Tensor.mk [L, 1, ys.length] (ewiseGet (fun a b => if a = b then 1 else 0)
            (tensor1d ys) (unsqueezeLast (unsqueezeLast (arange L))))))) := by
    show (broadcastShape [L, xs.length] [L, 1, ys.length]).map _ = _
    rw [hlen, bs3]
    rfl
  have e4 : compute_conf_mat (tensor1d xs) (tensor1d ys) L =
      some (sumDim (Tensor.mk [L, L, xs.length]
        (ewiseGet (fun a b => if a ≠ 0 ∧ b ≠ 0 then 1 else 0)
          (Tensor.mk [L, xs.length] (ewiseGet (fun a b => if a = b then 1 else 0)
            (tensor1d xs) (unsqueezeLast (arange L))))
          (Tensor.mk [L, 1, ys.length] (ewiseGet (fun a b => if a = b then 1 else 0)
            (tensor1d ys) (unsqueezeLast (unsqueezeLast (arange L))))))) 2) := by
    unfold compute_conf_mat
    simp only [e1, e2, e3]
  constructor
  · rw [e4]
    rfl
  · rw [e4]
    unfold matEntry
    rw [Option.map_some']
    rw [sumDim_get2]
    congr 1
    apply congrArg List.sum
    apply List.map_congr_left
    intro j hj
    have hjn : j < xs.length := List.mem_range.mp hj
    exact and_entry_1d xs ys L g p j hg hp hjn (by omega)

theorem sum_indicator_eq_countPairs (xs : List Int) :
    ∀ (ys : List Int) (gI pI : Int), ys.length = xs.length →
    ((List.range xs.length).map (fun j =>
        if xs.getD j 0 = pI ∧ ys.getD j 0 = gI then (1 : Int) else 0)).sum =
      countPairs xs ys gI pI := by
  induction xs with
  | nil =>
    intro ys gI pI hlen
    simp [countPairs]
  | cons x xs' ih =>
    intro ys gI pI hlen
    obtain ⟨y, ys', rfl⟩ : ∃ y ys', ys = y :: ys' := by
      cases ys with
      | nil => simp at hlen
      | cons a b => exact ⟨a, b, rfl⟩
    have hlen' : ys'.length = xs'.length := by simpa using hlen
    rw [List.length_cons, List.range_succ_eq_map, List.map_cons, List.map_map, List.sum_cons]
    have hmap : (List.range xs'.length).map
        ((fun j => if (x :: xs').getD j 0 = pI ∧ (y :: ys').getD j 0 = gI
          then (1 : Int) else 0) ∘ Nat.succ) =
        (List.range xs'.length).map (fun j =>
          if xs'.getD j 0 = pI ∧ ys'.getD j 0 = gI then (1 : Int) else 0) := by
      apply List.map_congr_left
      intro j _
      simp [Function.comp, List.getD_cons_succ]
    rw [hmap, ih ys' gI pI hlen']
    unfold countPairs
    rw [List.zip_cons_cons]
    by_cases hc : x = pI ∧ y = gI
    · rw [if_pos (by simpa using hc)]
      rw [List.filter_cons_of_pos (by simp [hc.1, hc.2])]
      rw [List.length_cons]
      push_cast
      ring
    · rw [if_neg (by simpa using hc)]
      rw [List.filter_cons_of_neg (by simpa using hc)]
      ring

theorem countPairs_append (out1 y1 out2 y2 : List Int) (gI pI : Int)
    (h1 : y1.length = out1.length) :
    countPairs (out1 ++ out2) (y1 ++ y2) gI pI =
      countPairs out1 y1 gI pI + countPairs out2 y2 gI pI := by
  unfold countPairs
  rw [List.zip_append h1.symm, List.filter_append, List.length_append]
  push_cast
  ring

/-- Claim C2 counterexample: the claim fails for multi-dimensional inputs.
With the 2×2 predicted and ground-truth tensors `[[1,1],[0,0]]` (all labels in
`[0,2)`), `torch` broadcasting makes `compute_conf_mat` return 0 in cell
`[0][0]`, although 2 element positions have ground-truth 0 and prediction 0. -/
theorem claim_C2_counterexample :
    matEntry (compute_conf_mat (tensor2d [[1, 1], [0, 0]]) (tensor2d [[1, 1], [0, 0]]) 2) 0 0 =
      some 0
    ∧ countPairs [1, 1, 0, 0] [1, 1, 0, 0] 0 0 = 2
    ∧ (0 : Int) ≠ 2 := by
  refine ⟨by decide, by decide, by decide⟩

/-- Claim C2 (amended): for ONE-DIMENSIONAL predicted and ground-truth label
tensors of identical length, with all label values in `[0, num_labels)`,
`compute_conf_mat` returns a `num_labels × num_labels` matrix whose cell
`[g][p]` counts the positions where the ground truth equals `g` and the
prediction equals `p`.  (For multi-dimensional inputs the broadcasting
produces a wrong result, see the counterexample.) -/
theorem claim_C2 (xs ys : List Int) (L g p : Nat)
    (hlen : ys.length = xs.length)
    (hxr : ∀ v ∈ xs, 0 ≤ v ∧ v < (L : Int)) (hyr : ∀ v ∈ ys, 0 ≤ v ∧ v < (L : Int))
    (hg : g < L) (hp : p < L) :
    (compute_conf_mat (tensor1d xs) (tensor1d ys) L).map Tensor.shape = some [L, L]
    ∧ matEntry (compute_conf_mat (tensor1d xs) (tensor1d ys) L) g p =
        some (countPairs xs ys (Int.ofNat g) (Int.ofNat p)) := by
  obtain ⟨hshape, hentry⟩ := conf_mat_1d xs ys L g p hlen hg hp
  exact ⟨hshape, by rw [hentry, sum_indicator_eq_countPairs xs ys _ _ hlen]⟩

theorem claim_C2_witness :
    (([(1 : Int), 1] : List Int).length = ([(0 : Int), 1] : List Int).length)
    ∧ (∀ v ∈ ([(0 : Int), 1] : List Int), 0 ≤ v ∧ v < (2 : Int))
    ∧ (∀ v ∈ ([(1 : Int), 1] : List Int), 0 ≤ v ∧ v < (2 : Int))
    ∧ (1 : Nat) < 2 ∧ (0 : Nat) < 2
    ∧ matEntry (compute_conf_mat (tensor1d [0, 1]) (tensor1d [1, 1]) 2) 1 0 =
        some (countPairs [0, 1] [1, 1] (Int.ofNat 1) (Int.ofNat 0)) :=
  ⟨by decide, by decide, by decide, by decide, by decide,
    (claim_C2 [0, 1] [1, 1] 2 1 0 (by decide) (by decide) (by decide) (by decide)
      (by decide)).2⟩

/-- Claim C5: the elementwise sum of the confusion matrices of two batches
equals the confusion matrix of the concatenated batch. -/
theorem claim_C5 (out1 y1 out2 y2 : List Int) (L g p : Nat)
    (h1 : y1.length = out1.length) (h2 : y2.length = out2.length)
    (hg : g < L) (hp : p < L) :
    matEntry (compute_conf_mat (tensor1d (out1 ++ out2)) (tensor1d (y1 ++ y2)) L) g p =
      Option.map₂ (fun a b => a + b)
        (matEntry (compute_conf_mat (tensor1d out1) (tensor1d y1) L) g p)
        (matEntry (compute_conf_mat (tensor1d out2) (tensor1d y2) L) g p) := by
  have hcat : (y1 ++ y2).length = (out1 ++ out2).length := by
    simp [h1, h2]
  rw [(conf_mat_1d (out1 ++ out2) (y1 ++ y2) L g p hcat hg hp).2,
    (conf_mat_1d out1 y1 L g p h1 hg hp).2,
    (conf_mat_1d out2 y2 L g p h2 hg hp).2]
  rw [sum_indicator_eq_countPairs _ _ _ _ hcat,
    sum_indicator_eq_countPairs _ _ _ _ h1,
    sum_indicator_eq_countPairs _ _ _ _ h2]
  rw [countPairs_append out1 y1 out2 y2 _ _ h1]
  rfl

theorem claim_C5_witness :
    (([(1 : Int), 1] : List Int).length = ([(0 : Int), 1] : List Int).length)
    ∧ (([(0 : Int)] : List Int).length = ([(1 : Int)] : List Int).length)
    ∧ (0 : Nat) < 2 ∧ (1 : Nat) < 2
    ∧ matEntry (compute_conf_mat (tensor1d ([0, 1] ++ [1])) (tensor1d ([1, 1] ++ [0])) 2) 0 1 =
        Option.map₂ (fun a b => a + b)
          (matEntry (compute_conf_mat (tensor1d [0, 1]) (tensor1d [1, 1]) 2) 0 1)
          (matEntry (compute_conf_mat (tensor1d [1]) (tensor1d [0]) 2) 0 1) :=
  ⟨by decide, by decide, by decide, by decide,
    claim_C5 [0, 1] [1, 1] [1] [0] 2 0 1 (by decide) (by decide) (by decide) (by decide)⟩
